import Mathlib

/-!
Verification development for `scripts/createModel.py`.

The script reads tab-delimited input tables (compartments, species,
stoichiometry, rate laws, observables), synthesizes an Antimony model text,
converts it to SBML, annotates it and hands it to AMICI.  Everything the
script does with those tables is straight-line string and list manipulation,
which we embed shallowly below.

Modelling conventions:
* Python strings are sequences of code points; we model them as `List Char`
  (`PyStr`).  All string operations of the script (strip, split, slicing,
  membership, `str.replace`, the two `re` patterns) are defined on `PyStr`
  following Python's semantics.
* A table cell is modelled as a `Cell`: its raw text together with its
  numeric reading (`none` when the cell is empty, `nan`, or unparsable —
  the cases `np.genfromtxt` drops and `float`/`np.double` cannot turn into
  a finite value).  Numeric values are modelled as rationals; none of the
  verified claims depends on binary floating-point rounding.
-/

namespace CreateModel

/-- Python strings, modelled as lists of code points. -/
abbrev PyStr := List Char

/-- The character Python's `str()` prints for the decimal digit `d < 10`
(code point `48 + d`). -/
def pyDigitChar (d : Nat) : Char := Char.ofNat (48 + d)

/-- Accumulator form of Python's `str()` on a nonnegative integer:
prepends the decimal digits of `n` to `acc`. -/
def decStrAux (n : Nat) (acc : PyStr) : PyStr :=
  if n < 10 then pyDigitChar n :: acc
  else decStrAux (n / 10) (pyDigitChar (n % 10) :: acc)
termination_by n
decreasing_by exact Nat.div_lt_self (by omega) (by omega)

/-- Python's `str()` on a nonnegative integer: its decimal digits. -/
def decStr (n : Nat) : PyStr := decStrAux n []

/-- Number of decimal digits `decStr` produces. -/
def decLen (n : Nat) : Nat :=
  if n < 10 then 1 else decLen (n / 10) + 1
termination_by n
decreasing_by exact Nat.div_lt_self (by omega) (by omega)

/-- Reads a digit string back into a number, starting from accumulator `a`. -/
def digitsValFrom (a : Nat) : PyStr → Nat
  | [] => a
  | c :: cs => digitsValFrom (10 * a + (c.toNat - 48)) cs

/-- Python's whitespace characters (the ASCII ones `str.strip` removes). -/
def isPyWS (c : Char) : Bool :=
  c = ' ' || c = '\t' || c = '\n' || c = '\r' || c = '\x0b' || c = '\x0c'

/-- Python's `str.strip()`: removes leading and trailing whitespace. -/
def pyStrip (s : PyStr) : PyStr :=
  ((s.dropWhile isPyWS).reverse.dropWhile isPyWS).reverse

/-- Python's `str.split("\t")`: splits on every tab; `"".split("\t") = [""]`. -/
def splitTab : PyStr → List PyStr
  | [] => [[]]
  | c :: cs =>
    if c = '\t' then [] :: splitTab cs
    else
      match splitTab cs with
      | [] => [[c]]
      | h :: t => (c :: h) :: t

/-- Python's `str.replace(pat, rep)`: replaces every (leftmost,
non-overlapping) occurrence of `pat`.  The patterns the script replaces are
regex matches starting with the literal `k`, hence never empty; for an empty
`pat` we return `s` unchanged. -/
def replaceAll (pat rep : PyStr) : PyStr → PyStr
  | [] => []
  | c :: cs =>
    if h : pat ≠ [] ∧ pat.isPrefixOf (c :: cs) then
      rep ++ replaceAll pat rep ((c :: cs).drop pat.length)
    else
      c :: replaceAll pat rep cs
termination_by s => s.length
decreasing_by
  · simp only [List.length_drop, List.length_cons]
    have hp : 0 < pat.length := List.length_pos_of_ne_nil h.1
    omega
  · simp

/-- Atoms of the two regex patterns the script compiles:
a literal character, `\D*` (greedy), or `\d*` (greedy). -/
inductive RAtom where
  | lit (c : Char)
  | starND
  | starD
deriving DecidableEq

/-- Greedy backtracking over a starred atom: try dropping `k` characters
(the current repetition count), then `k-1`, ... down to `0`, and return the
first success, offset by the number of characters consumed. -/
def tryDrops (f : PyStr → Option Nat) (s : PyStr) : Nat → Option Nat
  | 0 => f s
  | k + 1 =>
    match f (s.drop (k + 1)) with
    | some m => some (k + 1 + m)
    | none => tryDrops f s k

/-- Anchored match of a pattern against a prefix of `s`, returning the
length of the (leftmost-greedy, Python `re` style) match. -/
def reMatch : List RAtom → PyStr → Option Nat
  | [], _ => some 0
  | .lit _ :: _, [] => none
  | .lit c :: ps, x :: xs => if x = c then (reMatch ps xs).map (· + 1) else none
  | .starND :: ps, xs =>
    tryDrops (fun t => reMatch ps t) xs (xs.takeWhile (fun c => !c.isDigit)).length
  | .starD :: ps, xs =>
    tryDrops (fun t => reMatch ps t) xs (xs.takeWhile Char.isDigit).length
termination_by p _ => p.length
decreasing_by all_goals (simp only [List.length_cons]; omega)

/-- Python's `re.finditer`: scan left to right, collect non-overlapping
matches, resuming after the end of each match. -/
def findIter (p : List RAtom) : PyStr → List PyStr
  | [] => []
  | c :: cs =>
    match reMatch p (c :: cs) with
    | some L =>
      if h : L = 0 then findIter p cs
      else (c :: cs).take L :: findIter p ((c :: cs).drop L)
    | none => findIter p cs
termination_by s => s.length
decreasing_by all_goals (simp only [List.length_drop, List.length_cons]; omega)

/-- The script's substitution step: collect the matches of `p` in `f`
(`finditer` runs on the formula as it was when the iterator was created),
then replace the text of each match in turn by the parameter `name`
(`str.replace` replaces all occurrences). -/
def substPattern (p : List RAtom) (name : PyStr) (f : PyStr) : PyStr :=
  (findIter p f).foldl (fun g m => replaceAll m name g) f

/-- The pattern `k\D*\d*` compiled for single-parameter rate laws. -/
def patSingle : List RAtom := [.lit 'k', .starND, .starD]

/-- The pattern `k(\D*)\d*_<j>` compiled for multi-parameter rate laws. -/
def patMulti (j : Nat) : List RAtom :=
  [.lit 'k', .starND, .starD, .lit '_'] ++ (decStr j).map .lit

/-- A table cell: its raw text together with its numeric reading (`none`
when the cell is empty, `nan`, or not a number — the cases `np.genfromtxt`
drops and `np.double`/`float` cannot read as a finite value). -/
structure Cell where
  raw : PyStr
  num : Option ℚ
deriving DecidableEq

/-- One reaction of the aligned stoichiometry/rate-law tables, as the loop
at `createModel.py:119` consumes it for reaction index `rowNum`:
* `colName`  = `stoic_columnnames[rowNum]` (the reaction's column header);
* `stoich`   = the pairs `(stoic_rownames[i], int(stoic_data[i][rowNum]))`
  in species order;
* `rxn`      = `ratelaw_sheet[rowNum+1][0]` (the rate-law row's name);
* `comp`     = `ratelaw[0]` (the compartment written into the rate);
* `field`    = `ratelaw[1]` (the rate-law's primary field);
* `trailing` = `ratelaw[2:]` (the trailing numeric columns). -/
structure ReactionRow where
  colName : PyStr
  stoich : List (PyStr × Int)
  rxn : PyStr
  comp : PyStr
  field : Cell
  trailing : List Cell
deriving DecidableEq

/-- The inner loop over `stoic_rownames`: a species with stoichiometric
value `v < 0` is appended `-v` times to `reactants`, with `v > 0` it is
appended `v` times to `products`. -/
def expandStoich (st : List (PyStr × Int)) : List PyStr × List PyStr :=
  st.foldl
    (fun acc p =>
      if p.2 < 0 then (acc.1 ++ List.replicate (-p.2).toNat p.1, acc.2)
      else if p.2 > 0 then (acc.1, acc.2 ++ List.replicate p.2.toNat p.1)
      else acc)
    ([], [])

/-- The parameter name `"k" + str(rowNum+1)` of a mass-action reaction. -/
def kNamePy (i : Nat) : PyStr := 'k' :: decStr (i + 1)

/-- The parameter name `"k" + str(rowNum+1) + "_" + str(j)` of a
non-mass-action reaction's `j`-th parameter. -/
def kIdxNamePy (i j : Nat) : PyStr := 'k' :: decStr (i + 1) ++ '_' :: decStr j

/-- The per-row accumulation of the reaction loop: the rate formula and the
parameter names, values and ordinal indices appended for this row. -/
structure ParamAcc where
  formula : PyStr
  names : List PyStr
  vals : List (Option ℚ)
  idxs : List Nat
deriving DecidableEq

/-- Mass-action branch (`createModel.py:134-141`): the formula built so far
is `"k"+str(rowNum+1)+"*"` followed by `reactant+"*"` for every expanded
reactant token, with the final `"*"` removed (`formula[:-1]`); one parameter
`k<rowNum+1>` with the primary field's numeric value and ordinal index 0. -/
def massParams (i : Nat) (r : ReactionRow) (reactants : List PyStr) : ParamAcc :=
  { formula := (reactants.foldl (fun f s => f ++ s ++ ['*']) (kNamePy i ++ ['*'])).dropLast
    names := [kNamePy i]
    vals := [r.field.num]
    idxs := [0] }

/-- `float(ratelaw[j+1])` for trailing index `q = j-1`: `none` when the cell
is out of range (IndexError) or has no finite numeric reading. -/
def trailingVal (r : ReactionRow) (q : Nat) : Option ℚ :=
  (r.trailing.get? q).bind Cell.num

/-- The number of parameters of a non-mass-action row:
`np.genfromtxt(ratelaw[2:], float)` with the `nan` entries removed, i.e.
the number of trailing cells with a numeric reading. -/
def nParams (r : ReactionRow) : Nat := (r.trailing.filterMap Cell.num).length

/-- One iteration of the multi-parameter loop (`createModel.py:159-169`)
for loop counter `q` (Python's `j` is `q+1`): append the name
`k<rowNum+1>_<q+1>`, the value `float(ratelaw[q+2])`, the reaction name and
ordinal index `q`, and substitute the pattern `k(\D*)\d*_<q+1>` in the
formula by the new name. -/
def multiStep (i : Nat) (r : ReactionRow) (acc : ParamAcc) (q : Nat) : ParamAcc :=
  { formula := substPattern (patMulti (q + 1)) (kIdxNamePy i (q + 1)) acc.formula
    names := acc.names ++ [kIdxNamePy i (q + 1)]
    vals := acc.vals ++ [trailingVal r q]
    idxs := acc.idxs ++ [q] }

/-- Non-mass-action branch (`createModel.py:142-169`): the formula starts as
the primary field itself.  With exactly one parameter, allocate
`k<rowNum+1>_1` with value `float(ratelaw[2])` and ordinal index 0 and
substitute the un-indexed pattern `k\D*\d*`; otherwise run `multiStep` for
`q = 0, ..., n-1`. -/
def nonMassParams (i : Nat) (r : ReactionRow) : ParamAcc :=
  if nParams r = 1 then
    { formula := substPattern patSingle (kIdxNamePy i 1) r.field.raw
      names := [kIdxNamePy i 1]
      vals := [trailingVal r 0]
      idxs := [0] }
  else
    (List.range (nParams r)).foldl (multiStep i r)
      { formula := r.field.raw, names := [], vals := [], idxs := [] }

/-- The reaction line `"  %s: %s => %s; (%s)*%s;\n"` with the expanded
reactant and product token lists joined by `" + "`. -/
def mkLine (colName : PyStr) (reactants products : List PyStr) (formula comp : PyStr) : PyStr :=
  "  ".data ++ colName ++ ": ".data ++ List.intercalate " + ".data reactants ++
    " => ".data ++ List.intercalate " + ".data products ++ "; (".data ++ formula ++
    ")*".data ++ comp ++ ";\n".data

/-- Everything one iteration of the reaction loop contributes: the expanded
reactant/product token lists, the final formula, the parameter names,
values, owning reaction names and ordinal indices appended to the global
lists, and the reaction line (`none` when the row is skipped). -/
structure RowResult where
  reactants : List PyStr
  products : List PyStr
  formula : PyStr
  names : List PyStr
  vals : List (Option ℚ)
  rxns : List PyStr
  idxs : List Nat
  line : Option PyStr
deriving DecidableEq

/-- One iteration of the reaction loop (`createModel.py:119-175`) for the
0-based reaction index `i`: expand the stoichiometry column, run the
mass-action branch when the primary field does not contain the character
`k` (Python's `"k" not in ratelaw[1]`) and the non-mass-action branch
otherwise, append one copy of the rate-law row's name per allocated
parameter, and emit the reaction line unless the expanded reactant and
product lists are both empty. -/
def processRow (i : Nat) (r : ReactionRow) : RowResult :=
  let rp := expandStoich r.stoich
  let acc := if 'k' ∈ r.field.raw then nonMassParams i r
             else massParams i r rp.1
  { reactants := rp.1
    products := rp.2
    formula := acc.formula
    names := acc.names
    vals := acc.vals
    rxns := List.replicate acc.names.length r.rxn
    idxs := acc.idxs
    line :=
      if rp.1 = [] ∧ rp.2 = [] then none
      else some (mkLine r.colName rp.1 rp.2 acc.formula r.comp) }

/-- The global accumulation of the reaction loop: the four parameter lists
(`paramnames`, `paramvals`, `paramrxns`, `paramidxs`) and the reaction
lines written to the model text. -/
structure ModelResult where
  names : List PyStr
  vals : List (Option ℚ)
  rxns : List PyStr
  idxs : List Nat
  lines : List PyStr
deriving DecidableEq

/-- The whole reaction loop over the aligned reaction rows (`enumerate`
supplies the 0-based index): parameter lists are the concatenation of the
per-row contributions, the model text receives the non-skipped lines. -/
def synthesize (rows : List ReactionRow) : ModelResult :=
  let results := rows.enum.map (fun p => processRow p.1 p.2)
  { names := (results.map RowResult.names).flatten
    vals := (results.map RowResult.vals).flatten
    rxns := (results.map RowResult.rxns).flatten
    idxs := (results.map RowResult.idxs).flatten
    lines := results.filterMap RowResult.line }

/-- The rows of `ParamsAll.txt` (`createModel.py:178-179`): one row per
parameter, carrying name, value, owning reaction and ordinal index. -/
def paramsAllTable (m : ModelResult) : List (PyStr × Option ℚ × PyStr × Nat) :=
  m.names.zip (m.vals.zip (m.rxns.zip m.idxs))

/-- The parameter-initialization entries written into the model text
(`createModel.py:196-199`): the loop pairs `paramnames[count]` with
`paramvals[count]` in order.  (The `%.6e` decimal rendering of the value is
not modelled; no claim depends on it.) -/
def paramInits (m : ModelResult) : List (PyStr × Option ℚ) :=
  m.names.zip m.vals

/-! Section: Observable formula builder (`createModel.py:292-307`) -/

/-- One row of an observable column, positionally aligned with the species
sheet: the species label from `ObsMat.index`, the species' compartment
volume (`Vol_species`), and its membership weight in this observable. -/
structure ObsEntry where
  name : PyStr
  vol : ℚ
  w : ℚ
deriving DecidableEq

/-- `sp_obs`: the entries with strictly positive membership weight
(`ObsMat.loc[:,obs] > 0`), in species order. -/
def posContribs (col : List ObsEntry) : List ObsEntry :=
  col.filter (fun e => 0 < e.w)

/-- One summand of an observable formula, modelled as the pair of the
species label and its coefficient `Vf = (Vol_species/Vc) * weight`.  A
formula string `a*c1+b*c2+...` is modelled as its list of summands. -/
def obsTerm (Vc : ℚ) (e : ObsEntry) : PyStr × ℚ :=
  (e.name, e.vol / Vc * e.w)

/-- The three string-building branches for one observable column:
one term for a single contributor, two terms for two, and for more than two
a loop over `range(len(sp_obs)-1)` followed by the last term.  A column with
no positive-weight contributor matches no branch and builds nothing
(`none`). -/
def obsFormula (Vc : ℚ) (col : List ObsEntry) : Option (List (PyStr × ℚ)) :=
  let sp := posContribs col
  match sp with
  | [] => none
  | [a] => some [obsTerm Vc a]
  | [a, b] => some [obsTerm Vc a, obsTerm Vc b]
  | _ =>
    some ((List.range (sp.length - 1)).foldl
        (fun acc j => acc ++ [obsTerm Vc (sp.getD j ⟨[], 0, 0⟩)]) [] ++
      [obsTerm Vc (sp.getLast?.getD ⟨[], 0, 0⟩)])

/-- Value of a linear-combination formula under a species valuation. -/
def lcEval (env : PyStr → ℚ) (ts : List (PyStr × ℚ)) : ℚ :=
  (ts.map (fun t => env t.1 * t.2)).sum

/-- The observable loop (`createModel.py:292-307`): `formula_i` is a plain
Python variable, so a column whose contributor list is empty leaves it
bound to the previous column's formula, which is then appended again; if
the first column has no contributor, `formula_obs.append(formula_i)` raises
`NameError` (modelled as `none`). -/
def obsLoopAux (Vc : ℚ) :
    List (List ObsEntry) → Option (List (PyStr × ℚ)) → List (List (PyStr × ℚ)) →
      Option (List (List (PyStr × ℚ)))
  | [], _, acc => some acc
  | col :: rest, last, acc =>
    match obsFormula Vc col with
    | some f => obsLoopAux Vc rest (some f) (acc ++ [f])
    | none =>
      match last with
      | some f => obsLoopAux Vc rest (some f) (acc ++ [f])
      | none => none

/-- The full observable pass: no formula is bound before the first column. -/
def buildObsAll (Vc : ℚ) (cols : List (List ObsEntry)) :
    Option (List (List (PyStr × ℚ))) :=
  obsLoopAux Vc cols none []

/-! Section: Table loader (`createModel.py:70,84,103,106`) -/

/-- One line of a loaded sheet: `line.strip().split("\t")`. -/
def loadLine (l : PyStr) : List PyStr := splitTab (pyStrip l)

/-- Modelled from the spec: the loader the specification describes
"strips only line terminators" from each line before splitting; this
variant removes exactly the trailing `\n`/`\r` characters. -/
def stripLineTerm (s : PyStr) : PyStr :=
  (s.reverse.dropWhile (fun c => c = '\n' || c = '\r')).reverse

/-- Modelled from the spec: a loaded line under the specification's
strip-only-line-terminators reading. -/
def specLoadLine (l : PyStr) : List PyStr := splitTab (stripLineTerm l)

/-- The sheet loader: `np.array([np.array(line.strip().split("\t")) for
line in open(path)])`.  A missing file raises `FileNotFoundError` at
`open` (`none` input); rows of unequal field counts make the outer
`np.array` call raise `ValueError` (ragged nested sequences).  Either
exception aborts the run. -/
def loadTable (file : Option (List PyStr)) : Except Unit (List (List PyStr)) :=
  match file with
  | none => Except.error ()
  | some lines =>
    let grid := lines.map loadLine
    if grid.all (fun r => r.length = (grid.headD []).length) then Except.ok grid
    else Except.error ()

/-! Section: Annotator (`createModel.py:247-259`) -/

/-- The stop test of the species-annotation loop: the cell's stripped text
is `"nan"` or empty. -/
def isAnnotStop (c : PyStr) : Bool :=
  pyStrip c = "nan".data || pyStrip c = []

/-- The annotation text accumulated from a list of cells: `" " + cell` per
cell, stopping at the first cell whose stripped text is `"nan"` or empty. -/
def annotFrom : List PyStr → PyStr
  | [] => []
  | c :: rest => if isAnnotStop c then [] else (' ' :: c) ++ annotFrom rest

/-- The species annotation the annotator writes: the loop runs over
`range(4, len(row))`, i.e. over the cells from the fifth column onward. -/
def speciesAnnot (row : List PyStr) : PyStr := annotFrom (row.drop 4)

/-- Modelled from the spec: the annotation built from "the columns after
name, compartment, and initial value", i.e. from the fourth column onward. -/
def specSpeciesAnnot (row : List PyStr) : PyStr := annotFrom (row.drop 3)

/-- The compartment annotation the annotator writes: the row's third
column (`row[2]`); `none` models the `IndexError` on a shorter row. -/
def compartmentAnnot (row : List PyStr) : Option PyStr := row.get? 2

/-! Section: Format converter (`createModel.py:227-237`) -/

/-- The two checked steps at the end of the script, as a function of the
integer results of `antimony.loadFile` and `antimony.writeSBMLFile` (the
script treats exactly the result `1` as success): the status lines printed
and the explicit exit code (`none` when the script continues past the
converter, finishing with exit code 0 if the remaining, unchecked steps
succeed). -/
def formatConverter (loadRes writeRes : Int) : List PyStr × Option Nat :=
  if loadRes = 1 then
    if writeRes = 1 then
      (["Success loading antimony file".data,
        "Success converting antimony to SBML".data], none)
    else
      (["Success loading antimony file".data,
        "Failure converting antimony to SBML".data], some 1)
  else
    (["Failed to load antimony file".data], some 1)

/-! Section: Decimal strings -/

theorem pyDigitChar_toNat {d : Nat} (h : d < 10) : (pyDigitChar d).toNat = 48 + d := by
  interval_cases d <;> decide

theorem pyDigitChar_isDigit {d : Nat} (h : d < 10) : (pyDigitChar d).isDigit = true := by
  interval_cases d <;> decide

theorem digitsValFrom_decStrAux (n : Nat) (acc : PyStr) :
    ∀ a, digitsValFrom a (decStrAux n acc) =
      digitsValFrom (a * 10 ^ decLen n + n) acc := by
  induction n, acc using decStrAux.induct with
  | case1 n acc h =>
    intro a
    rw [decStrAux, if_pos h, decLen, if_pos h]
    show digitsValFrom (10 * a + ((pyDigitChar n).toNat - 48)) acc = _
    rw [pyDigitChar_toNat h]
    have : 10 * a + (48 + n - 48) = a * 10 ^ 1 + n := by ring_nf; omega
    rw [this]
  | case2 n acc h ih =>
    intro a
    rw [decStrAux, if_neg h, decLen, if_neg h, ih]
    show digitsValFrom (10 * (a * 10 ^ decLen (n / 10) + n / 10) +
      ((pyDigitChar (n % 10)).toNat - 48)) acc = _
    rw [pyDigitChar_toNat (Nat.mod_lt _ (by omega))]
    congr 1
    calc 10 * (a * 10 ^ decLen (n / 10) + n / 10) + (48 + n % 10 - 48)
        = 10 * (a * 10 ^ decLen (n / 10)) + (10 * (n / 10) + n % 10) := by ring_nf; omega
      _ = 10 * (a * 10 ^ decLen (n / 10)) + n := by rw [Nat.div_add_mod]
      _ = a * 10 ^ (decLen (n / 10) + 1) + n := by rw [pow_succ]; ring

theorem digitsValFrom_decStr (n : Nat) : digitsValFrom 0 (decStr n) = n := by
  have h := digitsValFrom_decStrAux n [] 0
  rw [decStr, h]
  show 0 * 10 ^ decLen n + n = n
  simp

theorem decStr_inj {m n : Nat} (h : decStr m = decStr n) : m = n := by
  have h1 := digitsValFrom_decStr m
  rw [h, digitsValFrom_decStr] at h1
  exact h1.symm

theorem mem_decStrAux {c : Char} :
    ∀ {n : Nat} {acc : PyStr}, c ∈ decStrAux n acc → c.isDigit = true ∨ c ∈ acc := by
  intro n acc
  induction n, acc using decStrAux.induct with
  | case1 n acc h =>
    rw [decStrAux, if_pos h]
    intro hm
    rcases List.mem_cons.mp hm with hc | hc
    · exact Or.inl (hc ▸ pyDigitChar_isDigit h)
    · exact Or.inr hc
  | case2 n acc h ih =>
    rw [decStrAux, if_neg h]
    intro hm
    rcases ih hm with hc | hc
    · exact Or.inl hc
    · rcases List.mem_cons.mp hc with hc' | hc'
      · exact Or.inl (hc' ▸ pyDigitChar_isDigit (Nat.mod_lt _ (by omega)))
      · exact Or.inr hc'

theorem mem_decStr_isDigit {c : Char} {n : Nat} (h : c ∈ decStr n) : c.isDigit = true := by
  rcases mem_decStrAux h with h1 | h1
  · exact h1
  · simp at h1

/-- A tail that is empty or starts with a non-digit: appending it after an
all-digit block leaves the digit block as the maximal digit prefix. -/
theorem takeWhile_digit_append {a t : PyStr} (ha : ∀ c ∈ a, c.isDigit = true)
    (ht : t = [] ∨ ∃ c t', t = c :: t' ∧ c.isDigit = false) :
    (a ++ t).takeWhile Char.isDigit = a := by
  induction a with
  | nil =>
    rcases ht with rfl | ⟨c, t', rfl, hc⟩
    · simp
    · simp [List.takeWhile_cons, hc]
  | cons x xs ih =>
    have hx : x.isDigit = true := ha x (List.mem_cons_self x xs)
    simp only [List.cons_append, List.takeWhile_cons, hx, if_true]
    rw [ih (fun c hc => ha c (List.mem_cons_of_mem x hc))]

/-! Section: Reaction-loop characterizations -/

theorem expandStoich_foldl (st : List (PyStr × Int)) :
    ∀ acc : List PyStr × List PyStr,
      st.foldl (fun acc p =>
          if p.2 < 0 then (acc.1 ++ List.replicate (-p.2).toNat p.1, acc.2)
          else if p.2 > 0 then (acc.1, acc.2 ++ List.replicate p.2.toNat p.1)
          else acc) acc
        = (acc.1 ++ (st.map fun p =>
              if p.2 < 0 then List.replicate (-p.2).toNat p.1 else []).flatten,
           acc.2 ++ (st.map fun p =>
              if p.2 > 0 then List.replicate p.2.toNat p.1 else []).flatten) := by
  induction st with
  | nil => intro acc; simp
  | cons p st ih =>
    intro acc
    simp only [List.foldl_cons, List.map_cons, List.flatten_cons]
    by_cases h1 : p.2 < 0
    · simp only [if_pos h1, if_neg (show ¬ p.2 > 0 by omega), ih]
      simp [List.append_assoc]
    · by_cases h2 : p.2 > 0
      · simp only [if_neg h1, if_pos h2, ih]
        simp [List.append_assoc]
      · simp only [if_neg h1, if_neg h2, ih]
        simp

/-- The expanded reactant and product lists: one token per unit of negative
(resp. positive) stoichiometric multiplicity, in species order. -/
theorem expandStoich_eq (st : List (PyStr × Int)) :
    expandStoich st =
      ((st.map fun p => if p.2 < 0 then List.replicate (-p.2).toNat p.1 else []).flatten,
       (st.map fun p => if p.2 > 0 then List.replicate p.2.toNat p.1 else []).flatten) := by
  rw [expandStoich, expandStoich_foldl]
  simp

/-- The mass-action formula fold: starting from `init ++ "*"` and appending
`s ++ "*"` per token, removing the final character yields `init` followed by
`"*" ++ s` per token. -/
theorem massFold (l : List PyStr) :
    ∀ init : PyStr,
      (l.foldl (fun f s => f ++ s ++ ['*']) (init ++ ['*'])).dropLast
        = init ++ (l.map fun s => '*' :: s).flatten := by
  induction l with
  | nil => intro init; simp
  | cons s l ih =>
    intro init
    have h1 : (init ++ ['*']) ++ s ++ ['*'] = (init ++ ('*' :: s)) ++ ['*'] := by simp
    rw [List.foldl_cons, h1, ih]
    simp

/-- Closed form of the multi-parameter loop: appending `multiStep` over a
list of loop counters accumulates names, values and indices in order and
threads the substitutions through the formula. -/
theorem multiFold_proj (i : Nat) (r : ReactionRow) :
    ∀ (l : List Nat) (acc : ParamAcc),
      l.foldl (multiStep i r) acc =
        { formula := l.foldl
            (fun f q => substPattern (patMulti (q + 1)) (kIdxNamePy i (q + 1)) f)
            acc.formula
          names := acc.names ++ l.map (fun q => kIdxNamePy i (q + 1))
          vals := acc.vals ++ l.map (trailingVal r)
          idxs := acc.idxs ++ l } := by
  intro l
  induction l with
  | nil => intro acc; simp
  | cons q l ih =>
    intro acc
    rw [List.foldl_cons, List.foldl_cons, ih]
    simp [multiStep, List.append_assoc]

/-- Closed form of the non-mass-action branch: `n = nParams r` parameters
named `k<i+1>_1 .. k<i+1>_n`, with values from the trailing columns in
column order and ordinal indices `0 .. n-1`. -/
theorem nonMassParams_eq (i : Nat) (r : ReactionRow) :
    nonMassParams i r =
      { formula :=
          if nParams r = 1 then substPattern patSingle (kIdxNamePy i 1) r.field.raw
          else (List.range (nParams r)).foldl
            (fun f q => substPattern (patMulti (q + 1)) (kIdxNamePy i (q + 1)) f)
            r.field.raw
        names := (List.range (nParams r)).map (fun q => kIdxNamePy i (q + 1))
        vals := (List.range (nParams r)).map (trailingVal r)
        idxs := List.range (nParams r) } := by
  rw [nonMassParams]
  by_cases h : nParams r = 1
  · rw [if_pos h, if_pos h, h]
    simp [List.range_succ]
  · rw [if_neg h, if_neg h, multiFold_proj]
    simp

/-- The parameter names a row contributes. -/
def rowNames (i : Nat) (r : ReactionRow) : List PyStr :=
  if 'k' ∈ r.field.raw then (List.range (nParams r)).map (fun q => kIdxNamePy i (q + 1))
  else [kNamePy i]

theorem processRow_names (i : Nat) (r : ReactionRow) :
    (processRow i r).names = rowNames i r := by
  rw [processRow, rowNames]
  by_cases h : 'k' ∈ r.field.raw
  · simp only [if_pos h, nonMassParams_eq]
  · simp only [if_neg h, massParams]

theorem processRow_idxs (i : Nat) (r : ReactionRow) :
    (processRow i r).idxs =
      if 'k' ∈ r.field.raw then List.range (nParams r) else [0] := by
  rw [processRow]
  by_cases h : 'k' ∈ r.field.raw
  · simp only [if_pos h, nonMassParams_eq]
  · simp only [if_neg h, massParams]

theorem processRow_vals (i : Nat) (r : ReactionRow) :
    (processRow i r).vals =
      if 'k' ∈ r.field.raw then (List.range (nParams r)).map (trailingVal r)
      else [r.field.num] := by
  rw [processRow]
  by_cases h : 'k' ∈ r.field.raw
  · simp only [if_pos h, nonMassParams_eq]
  · simp only [if_neg h, massParams]

theorem processRow_rxns (i : Nat) (r : ReactionRow) :
    (processRow i r).rxns = List.replicate (processRow i r).names.length r.rxn := by
  rw [processRow]

theorem processRow_reactants (i : Nat) (r : ReactionRow) :
    (processRow i r).reactants = (expandStoich r.stoich).1 := by
  rw [processRow]

theorem processRow_products (i : Nat) (r : ReactionRow) :
    (processRow i r).products = (expandStoich r.stoich).2 := by
  rw [processRow]

theorem processRow_line (i : Nat) (r : ReactionRow) :
    (processRow i r).line =
      if (expandStoich r.stoich).1 = [] ∧ (expandStoich r.stoich).2 = [] then none
      else some (mkLine r.colName (expandStoich r.stoich).1 (expandStoich r.stoich).2
        (processRow i r).formula r.comp) := by
  rw [processRow]

theorem processRow_formula_mass (i : Nat) (r : ReactionRow) (h : 'k' ∉ r.field.raw) :
    (processRow i r).formula =
      kNamePy i ++ ((processRow i r).reactants.map fun s => '*' :: s).flatten := by
  rw [processRow_reactants, processRow]
  simp only [if_neg h, massParams]
  exact massFold _ (kNamePy i)

theorem processRow_formula_nonmass (i : Nat) (r : ReactionRow) (h : 'k' ∈ r.field.raw) :
    (processRow i r).formula =
      if nParams r = 1 then substPattern patSingle (kIdxNamePy i 1) r.field.raw
      else (List.range (nParams r)).foldl
        (fun f q => substPattern (patMulti (q + 1)) (kIdxNamePy i (q + 1)) f)
        r.field.raw := by
  rw [processRow]
  simp only [if_pos h, nonMassParams_eq]

/-! Section: Parameter-name uniqueness -/

/-- Every name a row contributes is `k`, the decimal digits of `i+1`, and a
tail that is empty (mass action) or `_<j>` (non mass action). -/
theorem mem_rowNames {i : Nat} {r : ReactionRow} {s : PyStr} (h : s ∈ rowNames i r) :
    ∃ t, s = 'k' :: (decStr (i + 1) ++ t) ∧
      (t = [] ∨ ∃ j, t = '_' :: decStr j) := by
  rw [rowNames] at h
  by_cases hk : 'k' ∈ r.field.raw
  · rw [if_pos hk] at h
    rcases List.mem_map.mp h with ⟨q, _, rfl⟩
    exact ⟨'_' :: decStr (q + 1), by simp [kIdxNamePy], Or.inr ⟨q + 1, rfl⟩⟩
  · rw [if_neg hk] at h
    rcases List.mem_singleton.mp h with rfl
    exact ⟨[], by simp [kNamePy], Or.inl rfl⟩

/-- A tail of the shape produced by the synthesizer never starts with a
digit, so the decimal block after `k` is recovered by `takeWhile isDigit`. -/
theorem takeWhile_decStr_tail {m : Nat} {t : PyStr}
    (ht : t = [] ∨ ∃ j, t = '_' :: decStr j) :
    (decStr m ++ t).takeWhile Char.isDigit = decStr m := by
  apply takeWhile_digit_append (fun c hc => mem_decStr_isDigit hc)
  rcases ht with rfl | ⟨j, rfl⟩
  · exact Or.inl rfl
  · exact Or.inr ⟨'_', decStr j, rfl, by decide⟩

/-- Two synthesizer names agree only when their row indices and tails do. -/
theorem name_eq_iff {i i' : Nat} {t t' : PyStr}
    (ht : t = [] ∨ ∃ j, t = '_' :: decStr j)
    (ht' : t' = [] ∨ ∃ j, t' = '_' :: decStr j)
    (h : ('k' :: (decStr (i + 1) ++ t)) = ('k' :: (decStr (i' + 1) ++ t'))) :
    i = i' ∧ t = t' := by
  have htl : decStr (i + 1) ++ t = decStr (i' + 1) ++ t' := by
    injection h
  have hkey : decStr (i + 1) = decStr (i' + 1) := by
    have h1 := takeWhile_decStr_tail (m := i + 1) ht
    have h2 := takeWhile_decStr_tail (m := i' + 1) ht'
    rw [← h1, ← h2, htl]
  have hi : i = i' := by
    have := decStr_inj hkey
    omega
  refine ⟨hi, ?_⟩
  subst hi
  exact List.append_cancel_left htl

theorem rowNames_nodup (i : Nat) (r : ReactionRow) : (rowNames i r).Nodup := by
  rw [rowNames]
  by_cases hk : 'k' ∈ r.field.raw
  · rw [if_pos hk]
    refine List.Nodup.map ?_ (List.nodup_range _)
    intro q q' h
    simp only [kIdxNamePy, List.cons_append] at h
    have := (name_eq_iff (Or.inr ⟨q + 1, rfl⟩) (Or.inr ⟨q' + 1, rfl⟩) h).2
    have h2 : decStr (q + 1) = decStr (q' + 1) := by
      injection this
    have := decStr_inj h2
    omega
  · rw [if_neg hk]
    exact List.nodup_singleton _

theorem rowNames_disjoint {i i' : Nat} {r r' : ReactionRow} (h : i ≠ i') :
    List.Disjoint (rowNames i r) (rowNames i' r') := by
  intro s hs hs'
  rcases mem_rowNames hs with ⟨t, rfl, ht⟩
  rcases mem_rowNames hs' with ⟨t', he, ht'⟩
  exact h (name_eq_iff ht ht' he).1

theorem synthesize_names (rows : List ReactionRow) :
    (synthesize rows).names =
      (rows.enum.map fun p => rowNames p.1 p.2).flatten := by
  rw [synthesize]
  simp only [List.map_map]
  congr 1
  apply List.map_congr_left
  intro p _
  exact processRow_names p.1 p.2

theorem synthesize_names' (rows : List ReactionRow) :
    (synthesize rows).names =
      (rows.enum.map fun p => (processRow p.1 p.2).names).flatten := by
  rw [synthesize]
  simp only [List.map_map]
  rfl

theorem synthesize_vals (rows : List ReactionRow) :
    (synthesize rows).vals =
      (rows.enum.map fun p => (processRow p.1 p.2).vals).flatten := by
  rw [synthesize]
  simp only [List.map_map]
  rfl

theorem synthesize_lines (rows : List ReactionRow) :
    (synthesize rows).lines =
      rows.enum.filterMap fun p => (processRow p.1 p.2).line := by
  rw [synthesize]
  simp only [List.filterMap_map]
  rfl

theorem processRow_vals_length (i : Nat) (r : ReactionRow) :
    (processRow i r).vals.length = (processRow i r).names.length := by
  rw [processRow_vals, processRow_names, rowNames]
  by_cases h : 'k' ∈ r.field.raw <;> simp [h]

theorem processRow_rxns_length (i : Nat) (r : ReactionRow) :
    (processRow i r).rxns.length = (processRow i r).names.length := by
  rw [processRow_rxns, List.length_replicate]

theorem processRow_idxs_length (i : Nat) (r : ReactionRow) :
    (processRow i r).idxs.length = (processRow i r).names.length := by
  rw [processRow_idxs, processRow_names, rowNames]
  by_cases h : 'k' ∈ r.field.raw <;> simp [h]

/-- Zipping two flattenings distributes over the per-row zips when the
row pieces have equal lengths. -/
theorem zip_flatten_of_len {α β : Type} :
    ∀ L : List (List α × List β), (∀ p ∈ L, p.1.length = p.2.length) →
      ((L.map Prod.fst).flatten).zip ((L.map Prod.snd).flatten) =
        (L.map fun p => p.1.zip p.2).flatten := by
  intro L
  induction L with
  | nil => intro _; simp
  | cons p L ih =>
    intro h
    simp only [List.map_cons, List.flatten_cons]
    rw [List.zip_append (h p (List.mem_cons_self p L)),
      ih fun q hq => h q (List.mem_cons_of_mem p hq)]

theorem paramInits_eq_flatten (rows : List ReactionRow) :
    paramInits (synthesize rows) =
      (rows.enum.map fun p =>
        ((processRow p.1 p.2).names).zip ((processRow p.1 p.2).vals)).flatten := by
  rw [paramInits, synthesize_names', synthesize_vals]
  have h := zip_flatten_of_len
    (rows.enum.map fun p => ((processRow p.1 p.2).names, (processRow p.1 p.2).vals))
    (by
      intro q hq
      rcases List.mem_map.mp hq with ⟨p, _, rfl⟩
      exact (processRow_vals_length p.1 p.2).symm)
  simp only [List.map_map] at h
  exact h

theorem synthesize_vals_length (rows : List ReactionRow) :
    (synthesize rows).vals.length = (synthesize rows).names.length := by
  rw [synthesize_names', synthesize_vals, List.length_flatten, List.length_flatten]
  simp only [List.map_map]
  congr 1
  apply List.map_congr_left
  intro p _
  exact processRow_vals_length p.1 p.2

theorem synthesize_rxns_length (rows : List ReactionRow) :
    (synthesize rows).rxns.length = (synthesize rows).names.length := by
  rw [synthesize_names', synthesize, List.length_flatten, List.length_flatten]
  simp only [List.map_map]
  congr 1
  apply List.map_congr_left
  intro p _
  exact processRow_rxns_length p.1 p.2

theorem synthesize_idxs_length (rows : List ReactionRow) :
    (synthesize rows).idxs.length = (synthesize rows).names.length := by
  rw [synthesize_names', synthesize, List.length_flatten, List.length_flatten]
  simp only [List.map_map]
  congr 1
  apply List.map_congr_left
  intro p _
  exact processRow_idxs_length p.1 p.2

/-- The first column of `ParamsAll.txt` is exactly the parameter-name list. -/
theorem paramsAllTable_fst (rows : List ReactionRow) :
    (paramsAllTable (synthesize rows)).map Prod.fst = (synthesize rows).names := by
  rw [paramsAllTable]
  apply List.map_fst_zip
  rw [List.length_zip, List.length_zip, synthesize_vals_length,
    synthesize_rxns_length, synthesize_idxs_length]
  omega

/-! Section: Trailing-column values -/

theorem nParams_le (r : ReactionRow) : nParams r ≤ r.trailing.length :=
  List.length_filterMap_le _ _

/-- The first `n` values read in column order are the first `n` trailing
cells' numeric readings. -/
theorem range_map_trailingVal (r : ReactionRow) :
    ∀ n, n ≤ r.trailing.length →
      (List.range n).map (trailingVal r) = (r.trailing.take n).map Cell.num := by
  intro n
  induction n with
  | zero => simp
  | succ n ih =>
    intro h
    rw [List.range_succ, List.map_append, ih (by omega), List.take_succ]
    simp only [List.map_append]
    congr 1
    have hn : n < r.trailing.length := by omega
    rw [List.map_singleton, trailingVal, List.get?_eq_getElem?,
      List.getElem?_eq_getElem hn]
    simp

/-! Section: Observable formulas -/

theorem foldl_append_map {α : Type} (g : Nat → α) :
    ∀ (m : Nat) (init : List α),
      (List.range m).foldl (fun acc j => acc ++ [g j]) init =
        init ++ (List.range m).map g := by
  intro m
  induction m with
  | zero => intro init; simp
  | succ m ih =>
    intro init
    rw [List.range_succ, List.foldl_append, ih]
    simp

theorem range_map_getD {α : Type} (d : α) :
    ∀ l : List α, (List.range l.length).map (fun j => l.getD j d) = l := by
  intro l
  induction l with
  | nil => simp
  | cons a l ih =>
    rw [List.length_cons, List.range_succ_eq_map]
    simp only [List.map_cons, List.map_map]
    congr 1

theorem range_pred_map_getD {α : Type} (d : α) (l : List α) :
    (List.range (l.length - 1)).map (fun j => l.getD j d) = l.dropLast := by
  have h := range_map_getD d l.dropLast
  rw [List.length_dropLast] at h
  rw [← h]
  apply List.map_congr_left
  intro j hj
  rw [List.mem_range] at hj
  have hj1 : j < l.dropLast.length := by rw [List.length_dropLast]; omega
  have hj2 : j < l.length := by omega
  rw [List.getD_eq_getElem _ d hj2, List.getD_eq_getElem _ d hj1, List.getElem_dropLast]

/-- All three branches of the observable builder produce exactly the term
list of the positive-weight contributors, in order. -/
theorem obsFormula_terms (Vc : ℚ) (col : List ObsEntry) {f : List (PyStr × ℚ)}
    (h : obsFormula Vc col = some f) :
    f = (posContribs col).map (obsTerm Vc) := by
  rw [obsFormula] at h
  rcases hsp : posContribs col with _ | ⟨a, _ | ⟨b, rest⟩⟩
  · rw [hsp] at h; exact absurd h (by simp)
  · rw [hsp] at h
    simp only [Option.some.injEq] at h
    rw [← h]; simp
  · rw [hsp] at h
    rcases rest with _ | ⟨c, rest'⟩
    · simp only [Option.some.injEq] at h
      rw [← h]; simp
    · simp only [Option.some.injEq] at h
      rw [← h]
      set sp := a :: b :: c :: rest' with hdef
      have hne : sp ≠ [] := by simp [hdef]
      rw [foldl_append_map, List.nil_append]
      have h1 : (List.range (sp.length - 1)).map
          (fun j => obsTerm Vc (sp.getD j ⟨[], 0, 0⟩)) =
          (sp.dropLast).map (obsTerm Vc) := by
        rw [← range_pred_map_getD (⟨[], 0, 0⟩ : ObsEntry) sp, List.map_map]
        rfl
      rw [h1, List.getLast?_eq_getLast sp hne]
      have h2 : sp.dropLast.map (obsTerm Vc) ++ [obsTerm Vc (sp.getLast hne)] =
          (sp.dropLast ++ [sp.getLast hne]).map (obsTerm Vc) := by
        simp
      rw [Option.getD_some, h2, List.dropLast_append_getLast hne]

/-! Section: Annotation characterization -/

/-- The annotation loop concatenates `" " ++ cell` over the maximal prefix
of cells whose stripped text is neither `"nan"` nor empty. -/
theorem annotFrom_takeWhile (cells : List PyStr) :
    annotFrom cells =
      (((cells.takeWhile fun c => !isAnnotStop c).map fun c => ' ' :: c)).flatten := by
  induction cells with
  | nil => simp [annotFrom]
  | cons c rest ih =>
    rw [annotFrom]
    by_cases h : isAnnotStop c = true
    · simp [List.takeWhile_cons, h]
    · rw [if_neg (by simp [h])]
      simp only [List.takeWhile_cons, Bool.not_eq_true'] at *
      simp [h, ih]

/-! Section: Concrete fixture rows -/

/-- A concrete mass-action reaction row (primary field `0.01`). -/
def exRowMass : ReactionRow :=
  { colName := "vA".data
    stoich := [("S1".data, -1), ("S2".data, 2)]
    rxn := "vA".data
    comp := "Cytoplasm".data
    field := { raw := "0.01".data, num := some (1 / 100) }
    trailing := [] }

/-- A concrete templated reaction row with two trailing parameters. -/
def exRowTemplate : ReactionRow :=
  { colName := "vB".data
    stoich := [("S1".data, -1)]
    rxn := "vB".data
    comp := "Cytoplasm".data
    field := { raw := "kcat_1*S1/(km_2+S1)".data, num := none }
    trailing := [{ raw := "2.0".data, num := some 2 },
                 { raw := "3.5".data, num := some (7 / 2) }] }

/-- A concrete all-zero stoichiometry row: its reaction line is skipped. -/
def exRowEmpty : ReactionRow :=
  { colName := "vC".data
    stoich := [("S1".data, 0)]
    rxn := "vC".data
    comp := "Cytoplasm".data
    field := { raw := "0.5".data, num := some (1 / 2) }
    trailing := [] }

/-- A concrete observable column with three positive-weight contributors. -/
def exObsCol : List ObsEntry :=
  [{ name := "A".data, vol := 1, w := 1 },
   { name := "B".data, vol := 2, w := 1 },
   { name := "C".data, vol := 3, w := 1 }]

/-- A concrete observable column with no positive-weight contributor. -/
def exObsColEmpty : List ObsEntry :=
  [{ name := "A".data, vol := 1, w := 0 }]

/-! Section: Claims -/

/-- C1: for every reaction row whose rate-law primary field contains no
symbolic parameter token (no `k`), the synthesizer treats it as plain mass
action: exactly one parameter named `k<i+1>` with ordinal index 0, the
field's numeric value and the row's reaction name is allocated, the
expanded reactant list has one token per unit of negative stoichiometric
multiplicity, and the formula written into the reaction line is the rate
constant `k<i+1>` followed by the product of the expanded reactant tokens. -/
theorem C1_mass_action_row (i : Nat) (r : ReactionRow) (h : 'k' ∉ r.field.raw) :
    (processRow i r).names = [kNamePy i] ∧
    (processRow i r).idxs = [0] ∧
    (processRow i r).vals = [r.field.num] ∧
    (processRow i r).rxns = [r.rxn] ∧
    (processRow i r).reactants =
      (r.stoich.map fun p =>
        if p.2 < 0 then List.replicate (-p.2).toNat p.1 else []).flatten ∧
    (processRow i r).formula =
      kNamePy i ++ ((processRow i r).reactants.map fun s => '*' :: s).flatten := by
  refine ⟨?_, ?_, ?_, ?_, ?_, processRow_formula_mass i r h⟩
  · rw [processRow_names, rowNames, if_neg h]
  · rw [processRow_idxs, if_neg h]
  · rw [processRow_vals, if_neg h]
  · rw [processRow_rxns, processRow_names, rowNames, if_neg h]
    simp
  · rw [processRow_reactants, expandStoich_eq]

theorem C1_mass_action_row_witness :
    'k' ∉ exRowMass.field.raw ∧
    ((processRow 0 exRowMass).names = [kNamePy 0] ∧
     (processRow 0 exRowMass).idxs = [0] ∧
     (processRow 0 exRowMass).vals = [exRowMass.field.num] ∧
     (processRow 0 exRowMass).rxns = [exRowMass.rxn] ∧
     (processRow 0 exRowMass).reactants =
       (exRowMass.stoich.map fun p =>
         if p.2 < 0 then List.replicate (-p.2).toNat p.1 else []).flatten ∧
     (processRow 0 exRowMass).formula =
       kNamePy 0 ++ ((processRow 0 exRowMass).reactants.map fun s => '*' :: s).flatten) :=
  ⟨by decide, C1_mass_action_row 0 exRowMass (by decide)⟩

/-- C2: for every reaction row whose rate-law primary field contains the
parameter token `k`, the synthesizer allocates exactly one parameter per
non-missing numeric value in the trailing rate-law columns, named
`k<i+1>_<j>` for `j = 1..n`, with ordinal indices `0..n-1` in column order
and values read from the trailing columns in column order; the formula is
the field with the templated tokens substituted, using the un-indexed
pattern `k\D*\d*` when there is one parameter and the indexed patterns
`k(\D*)\d*_<j>` otherwise. -/
theorem C2_template_row (i : Nat) (r : ReactionRow) (h : 'k' ∈ r.field.raw) :
    (processRow i r).names =
      (List.range (nParams r)).map (fun q => kIdxNamePy i (q + 1)) ∧
    (processRow i r).idxs = List.range (nParams r) ∧
    (processRow i r).vals = (r.trailing.take (nParams r)).map Cell.num ∧
    nParams r = (r.trailing.filterMap Cell.num).length ∧
    (processRow i r).formula =
      (if nParams r = 1 then substPattern patSingle (kIdxNamePy i 1) r.field.raw
       else (List.range (nParams r)).foldl
         (fun f q => substPattern (patMulti (q + 1)) (kIdxNamePy i (q + 1)) f)
         r.field.raw) := by
  refine ⟨?_, ?_, ?_, rfl, processRow_formula_nonmass i r h⟩
  · rw [processRow_names, rowNames, if_pos h]
  · rw [processRow_idxs, if_pos h]
  · rw [processRow_vals, if_pos h, range_map_trailingVal r _ (nParams_le r)]

theorem C2_template_row_witness :
    'k' ∈ exRowTemplate.field.raw ∧
    ((processRow 0 exRowTemplate).names =
       (List.range (nParams exRowTemplate)).map (fun q => kIdxNamePy 0 (q + 1)) ∧
     (processRow 0 exRowTemplate).idxs = List.range (nParams exRowTemplate) ∧
     (processRow 0 exRowTemplate).vals =
       (exRowTemplate.trailing.take (nParams exRowTemplate)).map Cell.num ∧
     nParams exRowTemplate = (exRowTemplate.trailing.filterMap Cell.num).length ∧
     (processRow 0 exRowTemplate).formula =
       (if nParams exRowTemplate = 1 then
          substPattern patSingle (kIdxNamePy 0 1) exRowTemplate.field.raw
        else (List.range (nParams exRowTemplate)).foldl
          (fun f q => substPattern (patMulti (q + 1)) (kIdxNamePy 0 (q + 1)) f)
          exRowTemplate.field.raw)) :=
  ⟨by decide, C2_template_row 0 exRowTemplate (by decide)⟩

/-- C3: every built observable formula is the linear combination whose
summand for each strictly-positive-weight contributor is
`species * (compartmentVolume/cytoplasmVolume) * weight`; in particular the
three string-building branches (1, 2, more than 2 contributors) agree with
this single summation. -/
theorem C3_observable_formula (env : PyStr → ℚ) (Vc : ℚ) (col : List ObsEntry)
    (f : List (PyStr × ℚ)) (h : obsFormula Vc col = some f) :
    lcEval env f =
      ((posContribs col).map fun e => env e.name * (e.vol / Vc) * e.w).sum := by
  rw [obsFormula_terms Vc col h, lcEval, List.map_map]
  congr 1
  apply List.map_congr_left
  intro e _
  show env (obsTerm Vc e).1 * (obsTerm Vc e).2 = _
  rw [obsTerm]
  ring

theorem C3_observable_formula_witness :
    obsFormula 1 exObsCol =
      some [("A".data, 1), ("B".data, 2), ("C".data, 3)] ∧
    lcEval (fun _ => 1) [("A".data, 1), ("B".data, 2), ("C".data, 3)] =
      ((posContribs exObsCol).map fun e => (1 : ℚ) * (e.vol / 1) * e.w).sum :=
  ⟨by simp [obsFormula, exObsCol, posContribs, obsTerm, List.filter, List.range_succ],
   C3_observable_formula (fun _ => 1) 1 exObsCol
     [("A".data, 1), ("B".data, 2), ("C".data, 3)]
     (by simp [obsFormula, exObsCol, posContribs, obsTerm, List.filter, List.range_succ])⟩

/-- C4: a reaction line is emitted for a row exactly when its expanded
reactant and product lists are not both empty. -/
theorem C4_empty_reaction_skipped (i : Nat) (r : ReactionRow) :
    ((processRow i r).line).isSome = true ↔
      ¬((processRow i r).reactants = [] ∧ (processRow i r).products = []) := by
  rw [processRow_line, processRow_reactants, processRow_products]
  by_cases h : (expandStoich r.stoich).1 = [] ∧ (expandStoich r.stoich).2 = []
  · simp [if_pos h, h]
  · simp [if_neg h, h]

/-- C5: over any input, the parameter-name list the synthesizer accumulates
contains no duplicates. -/
theorem C5_paramnames_nodup (rows : List ReactionRow) :
    (synthesize rows).names.Nodup := by
  rw [synthesize_names, List.nodup_flatten]
  constructor
  · intro l hl
    rcases List.mem_map.mp hl with ⟨p, _, rfl⟩
    exact rowNames_nodup p.1 p.2
  · rw [List.pairwise_map]
    have h1 : (rows.enum.map Prod.fst).Nodup := by
      rw [List.enum_map_fst]
      exact List.nodup_range _
    have h2 : rows.enum.Pairwise (fun a b => a.1 ≠ b.1) := List.pairwise_map.mp h1
    exact h2.imp fun hab => rowNames_disjoint hab

/-- C6 counterexample: the loader's `line.strip()` removes all surrounding
whitespace, not only line terminators; on the line `"a\t\n"` it drops the
trailing tab and returns one field, where stripping only the line
terminators leaves two fields. -/
theorem C6_loader_counterexample :
    loadLine "a\t\n".data = [['a']] ∧
    specLoadLine "a\t\n".data = [['a'], []] ∧
    loadLine "a\t\n".data ≠ specLoadLine "a\t\n".data :=
  ⟨by decide, by decide, by decide⟩

/-- C6 amended: the loader strips all leading and trailing whitespace
(spaces and tabs included, not only line terminators) from each line,
splits on tabs, and returns the grid including the header row; a missing
file aborts the run, and any row whose field count differs from the
header's (in particular a row with fewer fields) aborts the run. -/
theorem C6_loader_amended :
    loadTable none = Except.error () ∧
    ∀ lines grid, loadTable (some lines) = Except.ok grid →
      grid = lines.map loadLine ∧
      ∀ row ∈ grid, row.length = (grid.headD []).length := by
  refine ⟨rfl, ?_⟩
  intro lines grid h
  simp only [loadTable] at h
  split at h
  next hc =>
    injection h with h
    subst h
    refine ⟨rfl, ?_⟩
    intro row hrow
    have h2 := List.all_eq_true.mp hc row hrow
    simpa using h2
  next => simp at h

theorem C6_loader_amended_witness :
    loadTable (some ["a\tb".data, "c\td".data]) =
      Except.ok [["a".data, "b".data], ["c".data, "d".data]] ∧
    ([["a".data, "b".data], ["c".data, "d".data]] =
        ["a\tb".data, "c\td".data].map loadLine ∧
     ∀ row ∈ [["a".data, "b".data], ["c".data, "d".data]],
       row.length = ([["a".data, "b".data], ["c".data, "d".data]].headD []).length) :=
  ⟨by rfl,
   C6_loader_amended.2 ["a\tb".data, "c\td".data]
     [["a".data, "b".data], ["c".data, "d".data]] (by rfl)⟩

/-- C7 counterexample: the species-annotation loop runs over
`range(4, len(row))`, skipping the first column after name, compartment and
initial value; on a row whose columns after the initial value are `A B` it
writes `" B"`, not the concatenation `" A B"` of the columns after the
first three. -/
theorem C7_annotation_counterexample :
    speciesAnnot ["S".data, "Cyt".data, "1.0".data, "A".data, "B".data] = " B".data ∧
    specSpeciesAnnot ["S".data, "Cyt".data, "1.0".data, "A".data, "B".data] = " A B".data ∧
    speciesAnnot ["S".data, "Cyt".data, "1.0".data, "A".data, "B".data] ≠
      specSpeciesAnnot ["S".data, "Cyt".data, "1.0".data, "A".data, "B".data] :=
  ⟨by decide, by decide, by decide⟩

/-- C7 amended: the annotator overwrites each species annotation with the
concatenation of `" " ++ cell` over the row's cells from the fifth column
onward (one column later than the columns right after name, compartment and
initial value), stopping at the first cell whose stripped text is empty or
`nan`; each compartment annotation is overwritten with the row's third
column. -/
theorem C7_annotation_amended :
    (∀ row : List PyStr,
      speciesAnnot row =
        (((row.drop 4).takeWhile fun c => !isAnnotStop c).map fun c => ' ' :: c).flatten) ∧
    (∀ (x y z : PyStr) (rest : List PyStr),
      compartmentAnnot (x :: y :: z :: rest) = some z) :=
  ⟨fun row => annotFrom_takeWhile (row.drop 4), fun _ _ _ _ => rfl⟩

/-- C8: the two checked steps print a success status line exactly when the
library call returns success, and the script explicitly exits with code 1
exactly when the load step or the write step fails (otherwise it continues,
finishing with exit code 0 when the remaining steps succeed). -/
theorem C8_converter_exit (l w : Int) :
    ((formatConverter l w).2 = some 1 ↔ ¬(l = 1 ∧ w = 1)) ∧
    ((formatConverter l w).2 = none ↔ (l = 1 ∧ w = 1)) ∧
    (("Success loading antimony file".data ∈ (formatConverter l w).1) ↔ l = 1) ∧
    (("Failed to load antimony file".data ∈ (formatConverter l w).1) ↔ ¬l = 1) ∧
    (("Success converting antimony to SBML".data ∈ (formatConverter l w).1) ↔
      (l = 1 ∧ w = 1)) ∧
    (("Failure converting antimony to SBML".data ∈ (formatConverter l w).1) ↔
      (l = 1 ∧ ¬w = 1)) := by
  by_cases hl : l = 1 <;> by_cases hw : w = 1 <;>
    simp [formatConverter, hl, hw]

theorem C8_converter_exit_witness :
    (formatConverter 1 1).2 = none ∧ (formatConverter 1 0).2 = some 1 :=
  ⟨(C8_converter_exit 1 1).2.1.mpr ⟨rfl, rfl⟩,
   (C8_converter_exit 1 0).1.mpr (by decide)⟩

/-- C9: a row whose expanded reactant and product lists are both empty
emits no reaction line, but its parameters are still recorded: its names
(with their values) appear in the global parameter lists, among the
parameter initializations, and in the first column of `ParamsAll.txt`. -/
theorem C9_skipped_row_params_kept (rows : List ReactionRow) (i : Nat)
    (r : ReactionRow) (hget : rows.get? i = some r)
    (hempty : (processRow i r).reactants = [] ∧ (processRow i r).products = []) :
    (processRow i r).line = none ∧
    (processRow i r).names.Sublist (synthesize rows).names ∧
    ((processRow i r).names.zip (processRow i r).vals).Sublist
      (paramInits (synthesize rows)) ∧
    ∀ nm ∈ (processRow i r).names,
      nm ∈ (paramsAllTable (synthesize rows)).map Prod.fst := by
  have hmem : (i, r) ∈ rows.enum := by
    rw [List.mk_mem_enum_iff_getElem?, ← List.get?_eq_getElem?]
    exact hget
  have hsub : (processRow i r).names.Sublist (synthesize rows).names := by
    rw [synthesize_names']
    exact List.sublist_flatten_of_mem (List.mem_map.mpr ⟨(i, r), hmem, rfl⟩)
  have hline : (processRow i r).line = none := by
    rw [processRow_line]
    rw [processRow_reactants, processRow_products] at hempty
    rw [if_pos hempty]
  refine ⟨hline, hsub, ?_, ?_⟩
  · rw [paramInits_eq_flatten]
    exact List.sublist_flatten_of_mem (List.mem_map.mpr ⟨(i, r), hmem, rfl⟩)
  · intro nm hnm
    rw [paramsAllTable_fst]
    exact hsub.subset hnm

theorem C9_skipped_row_params_kept_witness :
    [exRowEmpty].get? 0 = some exRowEmpty ∧
    ((processRow 0 exRowEmpty).reactants = [] ∧
     (processRow 0 exRowEmpty).products = []) ∧
    ((processRow 0 exRowEmpty).line = none ∧
     (processRow 0 exRowEmpty).names.Sublist (synthesize [exRowEmpty]).names ∧
     ((processRow 0 exRowEmpty).names.zip (processRow 0 exRowEmpty).vals).Sublist
       (paramInits (synthesize [exRowEmpty])) ∧
     ∀ nm ∈ (processRow 0 exRowEmpty).names,
       nm ∈ (paramsAllTable (synthesize [exRowEmpty])).map Prod.fst) :=
  ⟨rfl, by decide,
   C9_skipped_row_params_kept [exRowEmpty] 0 exRowEmpty rfl (by decide)⟩

/-- C10: an observable column without any strictly-positive-weight
contributor assigns no new formula: the previous column's formula is
appended again for it, and when such a column is the first one processed
the run fails with an undefined-variable error. -/
theorem C10_empty_observable_column (Vc : ℚ) (col : List ObsEntry)
    (h : posContribs col = []) :
    (∀ rest, buildObsAll Vc (col :: rest) = none) ∧
    (∀ rest last acc,
      obsLoopAux Vc (col :: rest) (some last) acc =
        obsLoopAux Vc rest (some last) (acc ++ [last])) := by
  have hn : obsFormula Vc col = none := by
    simp only [obsFormula]
    rw [h]
  constructor
  · intro rest
    rw [buildObsAll]
    simp [obsLoopAux, hn]
  · intro rest last acc
    simp [obsLoopAux, hn]

theorem C10_empty_observable_column_witness :
    posContribs exObsColEmpty = [] ∧
    buildObsAll 1 (exObsColEmpty :: []) = none ∧
    obsLoopAux 1 (exObsColEmpty :: []) (some [("B".data, 2)]) [] =
      obsLoopAux 1 [] (some [("B".data, 2)]) ([] ++ [[("B".data, 2)]]) :=
  ⟨by decide,
   (C10_empty_observable_column 1 exObsColEmpty (by decide)).1 [],
   (C10_empty_observable_column 1 exObsColEmpty (by decide)).2 [] [("B".data, 2)] []⟩

end CreateModel
